import Mathlib

/-
Verification development for the deterministic workflow execution core
(worker-interface of the workflow isolate).

The definitions below are a shallow embedding of the source module that
exports `overrideGlobals`, `activate`, `concludeActivation`, `inject`,
`resolveExternalDependencies` and `tryUnblockConditions`.  JavaScript `Map`s
are embedded as insertion-ordered association lists, promises are embedded as
ghost identifiers whose settlements are recorded in trace fields, and the
protobuf wire encoding is embedded as the (injective) record of the encoded
fields.
-/

set_option linter.unusedVariables false

namespace SdkCore

/-- JavaScript values, as far as the embedded operations inspect them. -/
inductive JSValue
  | undef
  | null
  | bool (b : Bool)
  | num (n : Int)
  | str (s : String)
deriving DecidableEq, Repr

/-- JavaScript truthiness, used by the source's `if (error)` test in
`resolveExternalDependencies`. -/
def isTruthy : JSValue → Bool
  | .undef => false
  | .null => false
  | .bool b => b
  | .num n => n != 0
  | .str s => s != ""

/-- User-land mutable environment: the variables that condition predicates
read and that (per the spec's rationale for the fixed-point loop) condition
resolvers may mutate. -/
abbrev Env := List (String × JSValue)

/-- Error kinds thrown by the embedded operations.  The source attaches
message strings (e.g. "WeakMap cannot be used in workflows because v8 GC is
non-deterministic"); only the kind is behaviorally relevant. -/
inductive Err
  | illegalState
  | typeError
  | determinismViolation
deriving DecidableEq, Repr

/-- Lookup in an insertion-ordered association list (JS `Map.get`). -/
def alookup {β : Type} : List (Nat × β) → Nat → Option β
  | [], _ => none
  | (k, v) :: rest, key => if k = key then some v else alookup rest key

/-- Insertion-ordered association list update (JS `Map.set`): an existing key
keeps its position, a new key is appended. -/
def aset {β : Type} : List (Nat × β) → Nat → β → List (Nat × β)
  | [], key, v => [(key, v)]
  | (k, w) :: rest, key, v =>
    if k = key then (k, v) :: rest else (k, w) :: aset rest key v

/-- Insertion-ordered association list removal (JS `Map.delete`). -/
def adel {β : Type} : List (Nat × β) → Nat → List (Nat × β)
  | [], _ => []
  | (k, w) :: rest, key => if k = key then rest else (k, w) :: adel rest key

/-- Protobuf well-known timestamp. -/
structure Timestamp where
  seconds : Nat
  nanos : Nat
deriving DecidableEq, Repr

/-- Modelled from the spec: `msToTs` from the common package (not under
src/), converting a millisecond duration to a protobuf timestamp/duration. -/
def msToTs (ms : Nat) : Timestamp := ⟨ms / 1000, ms % 1000 * 1000000⟩

/-- Modelled from the spec: `tsToMs` from the common package (not under
src/), converting a protobuf timestamp to epoch milliseconds. -/
def tsToMs (ts : Timestamp) : Nat := ts.seconds * 1000 + ts.nanos / 1000000

/-- Commands emitted by the embedded primitives (the source emits further
variants from handlers that live outside the modelled module). -/
inductive Command
  | startTimer (seq : Nat) (startToFireTimeout : Timestamp)
  | cancelTimer (seq : Nat)
deriving DecidableEq, Repr

/-- An entry of the pending-external-calls list: `seq` is `none` for
fire-and-forget (`ASYNC_IGNORED`) calls. -/
structure ExternalCall where
  ifaceName : String
  fnName : String
  args : List JSValue
  seq : Option Nat
deriving DecidableEq, Repr

/-- Settlement of a promise: resolution with a value or rejection with an
error value. -/
inductive Outcome
  | resolved (v : JSValue)
  | rejected (e : JSValue)
deriving DecidableEq, Repr

/-- The slice of `WorkflowInfo` the modelled operations touch. -/
structure WorkflowInfo where
  runId : String
  isReplaying : Bool
deriving DecidableEq, Repr

/-- Per-kind next sequence numbers (`state.nextSeqs`); the modelled module
allocates from the `timer` and `dependency` kinds. -/
structure NextSeqs where
  timer : Nat
  dependency : Nat
deriving DecidableEq, Repr

/-- A blocked condition: predicate over the user environment plus the
resolver of the waiting promise.  Modelled from the spec: the entries are
registered by the `condition` helper in the internals module (not under
src/); per the spec a resolver may mutate shared user state, hence
`onResolve : Env → Env`. -/
structure BlockedCond where
  fn : Env → Bool
  onResolve : Env → Env

/-- The workflow isolate state (`state` from the internals module), restricted
to the fields the modelled operations read or write, plus ghost trace fields
(`firedTimerCallbacks`, `promiseOutcomes`, `resolvedConds`) that record
user-visible callback/promise activity.  Timer completions store the id of the
captured callback closure; dependency completions store the id of the promise
created by the `ASYNC` stub. -/
structure WorkflowState where
  info : Option WorkflowInfo
  now : Nat
  completed : Bool
  commands : List Command
  nextSeqs : NextSeqs
  timerCompletions : List (Nat × Nat)
  depCompletions : List (Nat × Nat)
  pendingExternalCalls : List ExternalCall
  blockedConditions : List (Nat × BlockedCond)
  env : Env
  firedTimerCallbacks : List Nat
  promiseOutcomes : List (Nat × Outcome)
  resolvedConds : List Nat

/-- Modelled from the spec: `state.pushCommand` from the internals module
(not under src/); the command buffer is append-only and `pushCommand(cmd)`
appends. -/
def pushCommand (s : WorkflowState) (c : Command) : WorkflowState :=
  { s with commands := s.commands ++ [c] }

/-- The `setTimeout` override installed by `overrideGlobals`: allocate a fresh
timer sequence, register a completion whose resolver fires the callback (the
callback closure is abstracted as `cbId`) and whose rejector ignores
cancellation, push a `startTimer` command, and return the sequence as the
handle. -/
def setTimeoutImpl (cbId : Nat) (ms : Nat) (s : WorkflowState) :
    WorkflowState × Nat :=
  let seq := s.nextSeqs.timer
  let s1 := { s with
    nextSeqs := { s.nextSeqs with timer := seq + 1 },
    timerCompletions := aset s.timerCompletions seq cbId }
  (pushCommand s1 (.startTimer seq (msToTs ms)), seq)

/-- The `clearTimeout` override installed by `overrideGlobals`: advance the
timer sequence counter, delete the completion registered under the handle, and
push a `cancelTimer` command. -/
def clearTimeoutImpl (handle : Nat) (s : WorkflowState) : WorkflowState :=
  let s1 := { s with
    nextSeqs := { s.nextSeqs with timer := s.nextSeqs.timer + 1 },
    timerCompletions := adel s.timerCompletions handle }
  pushCommand s1 (.cancelTimer handle)

/-- A constructed `Date` object, reduced to its epoch milliseconds. -/
structure JSDate where
  epochMs : Nat
deriving DecidableEq, Repr

/-- The ambient globals replaced by `overrideGlobals`.  Constructors receive
their argument list; the date facilities additionally read the workflow
state that the overridden versions consult. -/
structure Globals where
  weakMapCtor : List JSValue → Except Err JSValue
  weakSetCtor : List JSValue → Except Err JSValue
  weakRefCtor : List JSValue → Except Err JSValue
  dateNowFn : WorkflowState → Nat
  dateCtorFn : List JSValue → WorkflowState → JSDate
  setTimeoutFn : Nat → Nat → WorkflowState → WorkflowState × Nat
  clearTimeoutFn : Nat → WorkflowState → WorkflowState

/-- `overrideGlobals`: replace the weak-reference-holding constructors with
ones that immediately throw a determinism violation, make no-argument `Date`
construction and `Date.now` read `state.now` (argument-carrying construction
delegates to the original constructor), and install the deterministic
`setTimeout`/`clearTimeout`. -/
def overrideGlobals (g : Globals) : Globals where
  weakMapCtor := fun _ => .error Err.determinismViolation
  weakSetCtor := fun _ => .error Err.determinismViolation
  weakRefCtor := fun _ => .error Err.determinismViolation
  dateNowFn := fun s => s.now
  dateCtorFn := fun args s =>
    if args.isEmpty then ⟨s.now⟩ else g.dateCtorFn args s
  setTimeoutFn := setTimeoutImpl
  clearTimeoutFn := clearTimeoutImpl

/-- The stub `inject` installs for `ApplyMode.ASYNC`: allocate a fresh
dependency sequence, register a completion for the newly created promise
(abstracted as `promiseId`), and append the call with its `seq` to the
pending-external-calls list. -/
def asyncDepStub (ifaceName fnName : String) (promiseId : Nat)
    (args : List JSValue) (s : WorkflowState) : WorkflowState :=
  let seq := s.nextSeqs.dependency
  { s with
    nextSeqs := { s.nextSeqs with dependency := seq + 1 },
    depCompletions := aset s.depCompletions seq promiseId,
    pendingExternalCalls :=
      s.pendingExternalCalls ++ [⟨ifaceName, fnName, args, some seq⟩] }

/-- The stub `inject` installs for `ApplyMode.ASYNC_IGNORED`: append the call
without a `seq` to the pending-external-calls list.  The stub's body is the
expression `state.pendingExternalCalls.push(...)`, and `Array.prototype.push`
returns the new length of the array, so the stub returns that number. -/
def asyncIgnoredDepStub (ifaceName fnName : String) (args : List JSValue)
    (s : WorkflowState) : WorkflowState × JSValue :=
  ({ s with pendingExternalCalls :=
      s.pendingExternalCalls ++ [⟨ifaceName, fnName, args, none⟩] },
   .num ((s.pendingExternalCalls.length : Int) + 1))

/-- Modelled from the spec: `consumeCompletion('dependency', seq)` from the
internals module (not under src/); it atomically removes and returns the
registered completion and fails with an illegal-state error when no
completion is registered under `seq`. -/
def consumeDepCompletion (s : WorkflowState) (seq : Nat) :
    Except Err (Nat × WorkflowState) :=
  match alookup s.depCompletions seq with
  | none => .error Err.illegalState
  | some promiseId =>
    .ok (promiseId, { s with depCompletions := adel s.depCompletions seq })

/-- One entry of the results passed to `resolveExternalDependencies`;
absent fields are `JSValue.undef`. -/
structure ExternalDependencyResult where
  seq : Nat
  result : JSValue
  error : JSValue
deriving DecidableEq, Repr

/-- `resolveExternalDependencies`: for each result consume the dependency
completion and reject the awaiting promise when `error` is truthy, otherwise
resolve it with `result`.  Settlements are recorded in the
`promiseOutcomes` trace. -/
def resolveExternalDependencies :
    List ExternalDependencyResult → WorkflowState → Except Err WorkflowState
  | [], s => .ok s
  | r :: rest, s =>
    match consumeDepCompletion s r.seq with
    | .error e => .error e
    | .ok (promiseId, s1) =>
      let settled : Outcome :=
        if isTruthy r.error then .rejected r.error else .resolved r.result
      resolveExternalDependencies rest
        { s1 with promiseOutcomes := s1.promiseOutcomes ++ [(promiseId, settled)] }

/-- Modelled from the spec: `state.getAndResetPendingExternalCalls` from the
internals module (not under src/); it returns the pending-external-calls list
and clears it. -/
def getAndResetPendingExternalCalls (s : WorkflowState) :
    WorkflowState × List ExternalCall :=
  ({ s with pendingExternalCalls := [] }, s.pendingExternalCalls)

/-- The record of fields of the delimited `WFActivationCompletion` message;
the wire encoding is injective, so the embedded "encoded" form is the record
itself. -/
structure EncodedCompletion where
  runId : Option String
  commands : List Command
deriving DecidableEq, Repr

/-- Result of `concludeActivation`. -/
inductive ActivationConclusion
  | pending (pendingExternalCalls : List ExternalCall) (numBlockedConditions : Nat)
  | complete (encoded : EncodedCompletion)
deriving DecidableEq, Repr

/-- `concludeActivation`: drain the pending external calls; when any exist
report a pending conclusion carrying them together with the number of blocked
conditions; otherwise encode the buffered commands (the internals interceptor
chain with no registered middleware is the identity on the input) into a
completion message and reset the command buffer. -/
def concludeActivation (s : WorkflowState) : WorkflowState × ActivationConclusion :=
  let drained := getAndResetPendingExternalCalls s
  if drained.2.length > 0 then
    (drained.1, .pending drained.2 drained.1.blockedConditions.length)
  else
    let encoded : EncodedCompletion :=
      ⟨drained.1.info.map WorkflowInfo.runId, drained.1.commands⟩
    ({ drained.1 with commands := [] }, .complete encoded)

/-- One pass of `tryUnblockConditions`: iterate the blocked-conditions map in
insertion order; every entry whose predicate evaluates to true has its
resolver called and is removed.  Returns the remaining entries, the resulting
user environment, and the sequence numbers resolved in order. -/
def unblockPass : List (Nat × BlockedCond) → Env →
    List (Nat × BlockedCond) × Env × List Nat
  | [], env => ([], env, [])
  | (seq, c) :: rest, env =>
    if c.fn env then
      let r := unblockPass rest (c.onResolve env)
      (r.1, r.2.1, seq :: r.2.2)
    else
      let r := unblockPass rest env
      ((seq, c) :: r.1, r.2.1, r.2.2)

/-- The outer loop of `tryUnblockConditions`: repeat passes until a full pass
unblocks nothing.  Each productive pass removes at least one entry, so fuel
exceeding the number of entries guarantees the loop exits through the
"no progress" branch. -/
def unblockLoop : Nat → List (Nat × BlockedCond) → Env →
    List (Nat × BlockedCond) × Env × List Nat
  | 0, conds, env => (conds, env, [])
  | f + 1, conds, env =>
    let p := unblockPass conds env
    if p.2.2.isEmpty then p
    else
      let q := unblockLoop f p.1 p.2.1
      (q.1, q.2.1, p.2.2 ++ q.2.2)

/-- The sequence numbers unblocked by a `tryUnblockConditions` call entered at
state `s`, in resolution order. -/
def unblockedSeqs (s : WorkflowState) : List Nat :=
  (unblockLoop (s.blockedConditions.length + 1) s.blockedConditions s.env).2.2

/-- `tryUnblockConditions`: loop through all blocked conditions, evaluate and
unblock to a fixed point; returns the updated state and the number of
unblocked conditions.  Resolver invocations are appended to the
`resolvedConds` trace. -/
def tryUnblockConditions (s : WorkflowState) : WorkflowState × Nat :=
  let r := unblockLoop (s.blockedConditions.length + 1) s.blockedConditions s.env
  ({ s with
      blockedConditions := r.1,
      env := r.2.1,
      resolvedConds := s.resolvedConds ++ r.2.2 },
   r.2.2.length)

/-- Job variants of a workflow activation. -/
inductive Variant
  | startWorkflow
  | fireTimer
  | resolveActivity
  | resolveChildWorkflowExecution
  | signalWorkflow
  | queryWorkflow
  | notifyHasPatch
  | cancelWorkflow
  | removeFromCache
  | resolveSignalExternalWorkflow
  | resolveRequestCancelExternalWorkflow
deriving DecidableEq, Repr

/-- A decoded activation job: `variant` is `none` when `job.variant` is
undefined, and `payload` is `none` when the field named by the variant is
unset/falsy. -/
structure Job where
  variant : Option Variant
  payload : Option JSValue
deriving DecidableEq, Repr

/-- Modelled from the spec: the per-variant handlers of `state.activator`
live in the internals module (not under src/) and their semantics are outside
the modelled core, so the embedding abstracts them as a function parameter. -/
abbrev Activator := Variant → JSValue → WorkflowState → WorkflowState

/-- Processing of a single activation job inside `activate`: fail on a
missing variant tag or an unset variant field; silently drop any non-query
job once the workflow has completed; otherwise dispatch to the activator and
run the condition unblocker.  The second component of the accumulator is the
trace of dispatched (variant, payload) pairs. -/
def processJob (activator : Activator)
    (acc : WorkflowState × List (Variant × JSValue)) (j : Job) :
    Except Err (WorkflowState × List (Variant × JSValue)) :=
  match j.variant with
  | none => .error Err.typeError
  | some v =>
    match j.payload with
    | none => .error Err.typeError
    | some p =>
      if acc.1.completed ∧ v ≠ Variant.queryWorkflow then .ok acc
      else
        let s1 := activator v p acc.1
        let s2 := (tryUnblockConditions s1).1
        .ok (s2, acc.2 ++ [(v, p)])

/-- Processing of an activation's job list. -/
def processJobs (activator : Activator) (jobs : List Job) (s : WorkflowState) :
    Except Err (WorkflowState × List (Variant × JSValue)) :=
  jobs.foldlM (processJob activator) (s, [])

/-- A decoded `WFActivation` message: `timestamp` is `null` for query-only
activations, `jobs` is `none` when the field is undefined. -/
structure Activation where
  timestamp : Option Timestamp
  isReplaying : Option Bool
  jobs : Option (List Job)
deriving DecidableEq, Repr

/-- Result returned by `activate` to the host. -/
structure ActivationResult where
  externalCalls : List ExternalCall
  numBlockedConditions : Nat
deriving DecidableEq, Repr

/-- `activate`: run a chunk of activation jobs.  On the first batch
(`batchIndex = 0`) validate that the runtime is initialized and that the
activation has jobs, advance `state.now` from the activation timestamp when
one is present, and copy the replay flag; then process the jobs and return
the drained pending external calls together with the number of blocked
conditions.  The internals interceptor chain with no registered middleware is
the identity, and the activator is a parameter (see `Activator`).  The third
returned component is the ghost dispatch trace of `processJobs`. -/
def activate (activator : Activator) (activation : Activation)
    (batchIndex : Nat) (s : WorkflowState) :
    Except Err (WorkflowState × ActivationResult × List (Variant × JSValue)) := do
  let s0 ←
    if batchIndex = 0 then
      if s.info.isNone then
        Except.error Err.illegalState
      else if activation.jobs.isNone then
        Except.error Err.typeError
      else
        let s1 :=
          match activation.timestamp with
          | some ts => { s with now := tsToMs ts }
          | none => s
        Except.ok { s1 with
          info := s1.info.map fun i =>
            { i with isReplaying := activation.isReplaying.getD false } }
    else
      Except.ok s
  match activation.jobs with
  | none => .error Err.typeError
  | some js => do
    let r ← processJobs activator js s0
    let drained := getAndResetPendingExternalCalls r.1
    .ok (drained.1, ⟨drained.2, drained.1.blockedConditions.length⟩, r.2)

/-- The operations of the modelled module that touch the sequence counters
and completion registries within a run. -/
inductive Op
  | opSetTimeout (cbId : Nat) (ms : Nat)
  | opClearTimeout (handle : Nat)
  | opAsyncDep (ifaceName fnName : String) (promiseId : Nat) (args : List JSValue)
  | opAsyncIgnoredDep (ifaceName fnName : String) (args : List JSValue)

/-- The state transition of one operation. -/
def stepOp : Op → WorkflowState → WorkflowState
  | .opSetTimeout cb ms, s => (setTimeoutImpl cb ms s).1
  | .opClearTimeout h, s => clearTimeoutImpl h s
  | .opAsyncDep i f p args, s => asyncDepStub i f p args s
  | .opAsyncIgnoredDep i f args, s => (asyncIgnoredDepStub i f args s).1

/-- The timer sequence numbers allocated (and registered) by a run of
operations, in allocation order. -/
def timerAllocsOf : List Op → WorkflowState → List Nat
  | [], _ => []
  | .opSetTimeout cb ms :: ops, s =>
    s.nextSeqs.timer :: timerAllocsOf ops (stepOp (.opSetTimeout cb ms) s)
  | op :: ops, s => timerAllocsOf ops (stepOp op s)

/-- The dependency sequence numbers allocated (and registered) by a run of
operations, in allocation order. -/
def depAllocsOf : List Op → WorkflowState → List Nat
  | [], _ => []
  | .opAsyncDep i f p args :: ops, s =>
    s.nextSeqs.dependency :: depAllocsOf ops (stepOp (.opAsyncDep i f p args) s)
  | op :: ops, s => depAllocsOf ops (stepOp op s)

/-- A freshly initialized workflow state used for concrete evaluations. -/
def baseState : WorkflowState where
  info := some ⟨"run-1", false⟩
  now := 0
  completed := false
  commands := []
  nextSeqs := ⟨0, 0⟩
  timerCompletions := []
  depCompletions := []
  pendingExternalCalls := []
  blockedConditions := []
  env := []
  firedTimerCallbacks := []
  promiseOutcomes := []
  resolvedConds := []

/-- A state with one buffered external call. -/
def pendState : WorkflowState :=
  { baseState with pendingExternalCalls := [⟨"logger", "info", [], none⟩] }

/-- A state with one registered dependency completion (seq 0, promise 7). -/
def depState : WorkflowState :=
  { baseState with depCompletions := [(0, 7)] }

/-- A state with two blocked conditions, one of which is unblockable. -/
def condState : WorkflowState :=
  { baseState with blockedConditions :=
      [(0, ⟨fun _ => true, fun e => e⟩), (1, ⟨fun _ => false, fun e => e⟩)] }

/-- A stand-in for the ambient globals before `overrideGlobals` runs. -/
def origGlobals : Globals where
  weakMapCtor := fun _ => .ok JSValue.undef
  weakSetCtor := fun _ => .ok JSValue.undef
  weakRefCtor := fun _ => .ok JSValue.undef
  dateNowFn := fun _ => 0
  dateCtorFn := fun _ _ => ⟨0⟩
  setTimeoutFn := fun _ _ s => (s, 0)
  clearTimeoutFn := fun _ s => s

/-- An activator that leaves the state unchanged, used for concrete
evaluations. -/
def idActivator : Activator := fun _ _ st => st

/-- A first-batch activation carrying timestamp 5s and no jobs to dispatch. -/
def tsActivation : Activation where
  timestamp := some ⟨5, 0⟩
  isReplaying := some false
  jobs := some []

/-- The value computed by `activate` on `tsActivation` at `baseState`. -/
def tsActivationOut : WorkflowState × ActivationResult × List (Variant × JSValue) :=
  match activate idActivator tsActivation 0 baseState with
  | .ok v => v
  | .error _ => (baseState, ⟨[], 0⟩, [])

theorem alookup_aset_self {β : Type} (m : List (Nat × β)) (k : Nat) (v : β) :
    alookup (aset m k v) k = some v := by
  induction m with
  | nil => simp [aset, alookup]
  | cons hd tl ih =>
    obtain ⟨a, w⟩ := hd
    by_cases ha : a = k
    · simp [aset, ha, alookup]
    · simp [aset, ha, alookup, ih]

theorem alookup_eq_none {β : Type} (m : List (Nat × β)) (k : Nat)
    (h : k ∉ m.map Prod.fst) : alookup m k = none := by
  induction m with
  | nil => rfl
  | cons hd tl ih =>
    obtain ⟨a, w⟩ := hd
    simp only [List.map_cons, List.mem_cons, not_or] at h
    have ha : a ≠ k := fun hc => h.1 hc.symm
    simp [alookup, ha, ih h.2]

theorem alookup_adel_self {β : Type} (m : List (Nat × β)) (k : Nat)
    (h : (m.map Prod.fst).Nodup) : alookup (adel m k) k = none := by
  induction m with
  | nil => rfl
  | cons hd tl ih =>
    obtain ⟨a, w⟩ := hd
    simp only [List.map_cons, List.nodup_cons] at h
    by_cases ha : a = k
    · subst ha
      simpa [adel] using alookup_eq_none tl a h.1
    · simp [adel, ha, alookup, ih h.2]

theorem alookup_adel_ne {β : Type} (m : List (Nat × β)) (k k' : Nat)
    (h : k' ≠ k) : alookup (adel m k) k' = alookup m k' := by
  induction m with
  | nil => rfl
  | cons hd tl ih =>
    obtain ⟨a, w⟩ := hd
    by_cases ha : a = k
    · subst ha
      have : a ≠ k' := fun hc => h (hc.symm)
      simp [adel, alookup, this]
    · by_cases hb : a = k'
      · simp [adel, ha, alookup, hb, h]
      · simp [adel, ha, alookup, hb, ih]

/-- Claim C9: after `overrideGlobals` has run, every construction of a weak
map, weak set, or weak reference immediately fails with a
determinism-violation error, for any arguments (and regardless of the prior
globals). -/
theorem overridden_weak_ctors_throw (g : Globals) (args : List JSValue) :
    (overrideGlobals g).weakMapCtor args = .error Err.determinismViolation ∧
    (overrideGlobals g).weakSetCtor args = .error Err.determinismViolation ∧
    (overrideGlobals g).weakRefCtor args = .error Err.determinismViolation :=
  ⟨rfl, rfl, rfl⟩

/-- Claim C3: `concludeActivation` returns a pending result carrying the
drained pending external calls and the blocked-condition count iff the
pending-external-calls list is non-empty at entry; otherwise it returns a
complete result with the encoded commands, and after a complete return the
command buffer `state.commands` is empty. -/
theorem concludeActivation_pending_iff_flush (s : WorkflowState) :
    ((concludeActivation s).2 =
        .pending s.pendingExternalCalls s.blockedConditions.length ↔
      s.pendingExternalCalls ≠ []) ∧
    (s.pendingExternalCalls = [] →
      (concludeActivation s).2 =
        .complete ⟨s.info.map WorkflowInfo.runId, s.commands⟩ ∧
      (concludeActivation s).1.commands = []) := by
  by_cases hnil : s.pendingExternalCalls = []
  · have hc : (concludeActivation s).2 =
        .complete ⟨s.info.map WorkflowInfo.runId, s.commands⟩ := by
      simp [concludeActivation, getAndResetPendingExternalCalls, hnil]
    have hb : (concludeActivation s).1.commands = [] := by
      simp [concludeActivation, getAndResetPendingExternalCalls, hnil]
    refine ⟨⟨fun h => ?_, fun h => absurd hnil h⟩, fun _ => ⟨hc, hb⟩⟩
    rw [hc] at h
    exact absurd h (by simp)
  · have hlen : 0 < s.pendingExternalCalls.length := List.length_pos.mpr hnil
    have hp : (concludeActivation s).2 =
        .pending s.pendingExternalCalls s.blockedConditions.length := by
      simp [concludeActivation, getAndResetPendingExternalCalls, hlen]
    exact ⟨⟨fun _ => hnil, fun _ => hp⟩, fun h => absurd h hnil⟩

/-- Witness for C3: at a state with one buffered call the conclusion is
pending with that call; at the fresh state it is complete. -/
theorem concludeActivation_pending_iff_flush_witness :
    (concludeActivation pendState).2 =
      .pending pendState.pendingExternalCalls pendState.blockedConditions.length ∧
    (concludeActivation baseState).2 =
      .complete ⟨baseState.info.map WorkflowInfo.runId, baseState.commands⟩ :=
  ⟨(concludeActivation_pending_iff_flush pendState).1.mpr (by decide),
   ((concludeActivation_pending_iff_flush baseState).2 rfl).1⟩

/-- Claim C10: when `concludeActivation` reports pending, the only state
change is that the pending-external-calls list is emptied into the result;
commands, completion registries, sequence counters and blocked conditions
are untouched, so the buffered commands are preserved for a later complete
conclusion. -/
theorem concludeActivation_pending_frame (s : WorkflowState)
    (h : s.pendingExternalCalls ≠ []) :
    (concludeActivation s).1 = { s with pendingExternalCalls := [] } ∧
    (concludeActivation s).2 =
      .pending s.pendingExternalCalls s.blockedConditions.length ∧
    (concludeActivation s).1.commands = s.commands ∧
    (concludeActivation s).1.nextSeqs = s.nextSeqs ∧
    (concludeActivation s).1.timerCompletions = s.timerCompletions ∧
    (concludeActivation s).1.depCompletions = s.depCompletions ∧
    (concludeActivation s).1.blockedConditions = s.blockedConditions ∧
    (concludeActivation s).1.pendingExternalCalls = [] := by
  have hlen : 0 < s.pendingExternalCalls.length := List.length_pos.mpr h
  simp [concludeActivation, getAndResetPendingExternalCalls, hlen]

/-- Witness for C10: at a state with one buffered call, the pending
conclusion leaves everything but the drained pending list unchanged. -/
theorem concludeActivation_pending_frame_witness :
    (concludeActivation pendState).1 = { pendState with pendingExternalCalls := [] } ∧
    (concludeActivation pendState).1.commands = pendState.commands :=
  ⟨(concludeActivation_pending_frame pendState (by decide)).1,
   (concludeActivation_pending_frame pendState (by decide)).2.2.1⟩

/-- Claim C7: `clearTimeout` on a handle previously returned by `setTimeout`
advances the timer sequence counter, removes the completion registered under
the handle without firing its callback or surfacing any rejection, and
appends a `cancelTimer` command carrying the handle.  (Unique map keys are
the ambient JS `Map` invariant.) -/
theorem clearTimeout_cancels_silently (cbId ms : Nat) (s0 s : WorkflowState)
    (h : Nat) (hh : (setTimeoutImpl cbId ms s0).2 = h)
    (hkeys : (s.timerCompletions.map Prod.fst).Nodup) :
    (clearTimeoutImpl h s).nextSeqs.timer = s.nextSeqs.timer + 1 ∧
    (clearTimeoutImpl h s).nextSeqs.dependency = s.nextSeqs.dependency ∧
    alookup (clearTimeoutImpl h s).timerCompletions h = none ∧
    (∀ k, k ≠ h → alookup (clearTimeoutImpl h s).timerCompletions k =
      alookup s.timerCompletions k) ∧
    (clearTimeoutImpl h s).firedTimerCallbacks = s.firedTimerCallbacks ∧
    (clearTimeoutImpl h s).promiseOutcomes = s.promiseOutcomes ∧
    (clearTimeoutImpl h s).commands = s.commands ++ [Command.cancelTimer h] := by
  refine ⟨rfl, rfl, ?_, ?_, rfl, rfl, rfl⟩
  · exact alookup_adel_self s.timerCompletions h hkeys
  · intro k hk
    exact alookup_adel_ne s.timerCompletions h k hk

/-- Witness for C7: sleep then cancel; the command list records both
`startTimer{seq 0}` and `cancelTimer{seq 0}`, and no callback fires. -/
theorem clearTimeout_cancels_silently_witness :
    (clearTimeoutImpl 0 (setTimeoutImpl 1 1000 baseState).1).commands =
      (setTimeoutImpl 1 1000 baseState).1.commands ++ [Command.cancelTimer 0] ∧
    (clearTimeoutImpl 0 (setTimeoutImpl 1 1000 baseState).1).firedTimerCallbacks =
      (setTimeoutImpl 1 1000 baseState).1.firedTimerCallbacks :=
  ⟨(clearTimeout_cancels_silently 1 1000 baseState
      (setTimeoutImpl 1 1000 baseState).1 0 rfl (by decide)).2.2.2.2.2.2,
   (clearTimeout_cancels_silently 1 1000 baseState
      (setTimeoutImpl 1 1000 baseState).1 0 rfl (by decide)).2.2.2.2.1⟩

/-- Counterexample for C8: the `ASYNC_IGNORED` stub does not return nothing --
its body is `state.pendingExternalCalls.push(...)` and `Array.prototype.push`
returns the new array length, so invoking `deps.metrics.emit(42)` on a state
with no pending calls returns the number 1, not `undefined`. -/
theorem asyncIgnored_returns_new_length_cex :
    (asyncIgnoredDepStub "metrics" "emit" [JSValue.num 42] baseState).2 =
      JSValue.num 1 ∧
    (asyncIgnoredDepStub "metrics" "emit" [JSValue.num 42] baseState).2 ≠
      JSValue.undef :=
  ⟨rfl, by decide⟩

/-- Claim C8 (amended): the `ASYNC_IGNORED` stub appends
`{ifaceName, fnName, args}` with no `seq` to the pending-external-calls
list, registers no completion and changes nothing else; its return value is
the new length of the pending list (per `Array.prototype.push`), which the
typed dependency interface discards. -/
theorem asyncIgnored_appends_no_seq (ifaceName fnName : String)
    (args : List JSValue) (s : WorkflowState) :
    (asyncIgnoredDepStub ifaceName fnName args s).1.pendingExternalCalls =
      s.pendingExternalCalls ++ [⟨ifaceName, fnName, args, none⟩] ∧
    (asyncIgnoredDepStub ifaceName fnName args s).1.depCompletions =
      s.depCompletions ∧
    (asyncIgnoredDepStub ifaceName fnName args s).1.timerCompletions =
      s.timerCompletions ∧
    (asyncIgnoredDepStub ifaceName fnName args s).1.nextSeqs = s.nextSeqs ∧
    (asyncIgnoredDepStub ifaceName fnName args s).1.commands = s.commands ∧
    (asyncIgnoredDepStub ifaceName fnName args s).1.promiseOutcomes =
      s.promiseOutcomes ∧
    (asyncIgnoredDepStub ifaceName fnName args s).2 =
      .num ((s.pendingExternalCalls.length : Int) + 1) :=
  ⟨rfl, rfl, rfl, rfl, rfl, rfl, rfl⟩

theorem stepOp_timer_mono (op : Op) (s : WorkflowState) :
    s.nextSeqs.timer ≤ (stepOp op s).nextSeqs.timer := by
  cases op <;>
    simp only [stepOp, setTimeoutImpl, clearTimeoutImpl, asyncDepStub,
      asyncIgnoredDepStub, pushCommand] <;> omega

theorem stepOp_dep_mono (op : Op) (s : WorkflowState) :
    s.nextSeqs.dependency ≤ (stepOp op s).nextSeqs.dependency := by
  cases op <;>
    simp only [stepOp, setTimeoutImpl, clearTimeoutImpl, asyncDepStub,
      asyncIgnoredDepStub, pushCommand] <;> omega

theorem timerAllocsOf_lb (ops : List Op) :
    ∀ (s : WorkflowState), ∀ x ∈ timerAllocsOf ops s, s.nextSeqs.timer ≤ x := by
  induction ops with
  | nil => intro s x hx; simp [timerAllocsOf] at hx
  | cons op ops ih =>
    intro s x hx
    cases op with
    | opSetTimeout cb ms =>
      simp only [timerAllocsOf, List.mem_cons] at hx
      rcases hx with rfl | hx
      · exact le_refl _
      · exact le_trans (stepOp_timer_mono _ s) (ih _ x hx)
    | opClearTimeout hdl =>
      simp only [timerAllocsOf] at hx
      exact le_trans (stepOp_timer_mono _ s) (ih _ x hx)
    | opAsyncDep i f p a =>
      simp only [timerAllocsOf] at hx
      exact le_trans (stepOp_timer_mono _ s) (ih _ x hx)
    | opAsyncIgnoredDep i f a =>
      simp only [timerAllocsOf] at hx
      exact le_trans (stepOp_timer_mono _ s) (ih _ x hx)

theorem depAllocsOf_lb (ops : List Op) :
    ∀ (s : WorkflowState), ∀ x ∈ depAllocsOf ops s, s.nextSeqs.dependency ≤ x := by
  induction ops with
  | nil => intro s x hx; simp [depAllocsOf] at hx
  | cons op ops ih =>
    intro s x hx
    cases op with
    | opAsyncDep i f p a =>
      simp only [depAllocsOf, List.mem_cons] at hx
      rcases hx with rfl | hx
      · exact le_refl _
      · exact le_trans (stepOp_dep_mono _ s) (ih _ x hx)
    | opSetTimeout cb ms =>
      simp only [depAllocsOf] at hx
      exact le_trans (stepOp_dep_mono _ s) (ih _ x hx)
    | opClearTimeout hdl =>
      simp only [depAllocsOf] at hx
      exact le_trans (stepOp_dep_mono _ s) (ih _ x hx)
    | opAsyncIgnoredDep i f a =>
      simp only [depAllocsOf] at hx
      exact le_trans (stepOp_dep_mono _ s) (ih _ x hx)

theorem timerAllocsOf_pairwise (ops : List Op) :
    ∀ (s : WorkflowState), (timerAllocsOf ops s).Pairwise (· < ·) := by
  induction ops with
  | nil => intro s; simp [timerAllocsOf]
  | cons op ops ih =>
    intro s
    cases op with
    | opSetTimeout cb ms =>
      simp only [timerAllocsOf, List.pairwise_cons]
      refine ⟨fun x hx => ?_, ih _⟩
      have hlb := timerAllocsOf_lb ops _ x hx
      have hstep : (stepOp (Op.opSetTimeout cb ms) s).nextSeqs.timer =
          s.nextSeqs.timer + 1 := rfl
      omega
    | opClearTimeout hdl => simpa only [timerAllocsOf] using ih _
    | opAsyncDep i f p a => simpa only [timerAllocsOf] using ih _
    | opAsyncIgnoredDep i f a => simpa only [timerAllocsOf] using ih _

theorem depAllocsOf_pairwise (ops : List Op) :
    ∀ (s : WorkflowState), (depAllocsOf ops s).Pairwise (· < ·) := by
  induction ops with
  | nil => intro s; simp [depAllocsOf]
  | cons op ops ih =>
    intro s
    cases op with
    | opAsyncDep i f p a =>
      simp only [depAllocsOf, List.pairwise_cons]
      refine ⟨fun x hx => ?_, ih _⟩
      have hlb := depAllocsOf_lb ops _ x hx
      have hstep : (stepOp (Op.opAsyncDep i f p a) s).nextSeqs.dependency =
          s.nextSeqs.dependency + 1 := rfl
      omega
    | opSetTimeout cb ms => simpa only [depAllocsOf] using ih _
    | opClearTimeout hdl => simpa only [depAllocsOf] using ih _
    | opAsyncIgnoredDep i f a => simpa only [depAllocsOf] using ih _

/-- Claim C5: for each sequence kind allocated by the modelled module (timer
and dependency), every allocation in a run of operations yields a value
strictly greater than all previously allocated values of that kind, and no
sequence number is reused for a new registration of that kind. -/
theorem seq_allocations_strictly_increasing (ops : List Op) (s : WorkflowState) :
    (timerAllocsOf ops s).Pairwise (· < ·) ∧ (timerAllocsOf ops s).Nodup ∧
    (depAllocsOf ops s).Pairwise (· < ·) ∧ (depAllocsOf ops s).Nodup :=
  ⟨timerAllocsOf_pairwise ops s,
   (timerAllocsOf_pairwise ops s).imp Nat.ne_of_lt,
   depAllocsOf_pairwise ops s,
   (depAllocsOf_pairwise ops s).imp Nat.ne_of_lt⟩

/-- Counterexample for C4: the source tests the error field with JS
truthiness (`if (error)`), so a falsy error value such as the number 0
resolves the awaiting promise with the (absent) result instead of rejecting
it. -/
theorem resolveExternalDependencies_falsy_error_resolves_cex :
    (resolveExternalDependencies [⟨0, JSValue.undef, JSValue.num 0⟩]
        depState).toOption.map (fun t => t.promiseOutcomes) =
      some [(7, Outcome.resolved JSValue.undef)] ∧
    (resolveExternalDependencies [⟨0, JSValue.undef, JSValue.num 0⟩]
        depState).toOption.map (fun t => t.promiseOutcomes) ≠
      some [(7, Outcome.rejected (JSValue.num 0))] :=
  ⟨rfl, by decide⟩

/-- Claim C4 (amended): for a dependency call made through an `ASYNC` stub
that allocated sequence `q` and registered a completion,
`resolveExternalDependencies [{seq q, result r}]` resolves the awaiting
promise with `r`; with a truthy error `e` it rejects the promise with `e`
(a falsy error resolves with the result instead, per the source's truthiness
test); and any seq with no registered dependency completion fails with an
illegal-state error. -/
theorem resolveExternalDependencies_correlation
    (ifaceName fnName : String) (promiseId : Nat) (args : List JSValue)
    (s0 : WorkflowState) (r e : JSValue) :
    (resolveExternalDependencies
        [⟨s0.nextSeqs.dependency, r, JSValue.undef⟩]
        (asyncDepStub ifaceName fnName promiseId args s0) =
      .ok { asyncDepStub ifaceName fnName promiseId args s0 with
            depCompletions :=
              adel (asyncDepStub ifaceName fnName promiseId args s0).depCompletions
                s0.nextSeqs.dependency,
            promiseOutcomes :=
              s0.promiseOutcomes ++ [(promiseId, Outcome.resolved r)] }) ∧
    (isTruthy e = true →
      resolveExternalDependencies
        [⟨s0.nextSeqs.dependency, r, e⟩]
        (asyncDepStub ifaceName fnName promiseId args s0) =
      .ok { asyncDepStub ifaceName fnName promiseId args s0 with
            depCompletions :=
              adel (asyncDepStub ifaceName fnName promiseId args s0).depCompletions
                s0.nextSeqs.dependency,
            promiseOutcomes :=
              s0.promiseOutcomes ++ [(promiseId, Outcome.rejected e)] }) ∧
    (∀ (t : WorkflowState) (q : Nat), alookup t.depCompletions q = none →
      ∀ r' e', resolveExternalDependencies [⟨q, r', e'⟩] t =
        .error Err.illegalState) := by
  have hlook : alookup
      (asyncDepStub ifaceName fnName promiseId args s0).depCompletions
      s0.nextSeqs.dependency = some promiseId :=
    alookup_aset_self s0.depCompletions s0.nextSeqs.dependency promiseId
  refine ⟨?_, fun he => ?_, fun t q hq r' e' => ?_⟩
  · simp only [resolveExternalDependencies, consumeDepCompletion, hlook,
      isTruthy]
    rfl
  · simp only [resolveExternalDependencies, consumeDepCompletion, hlook, he,
      if_true]
    rfl
  · simp [resolveExternalDependencies, consumeDepCompletion, hq]

/-- Witness for C4: a call through the `ASYNC` stub at the fresh state is
resolved by its result, rejected by a truthy error, and an unregistered seq
is an illegal state. -/
theorem resolveExternalDependencies_correlation_witness :
    resolveExternalDependencies [⟨0, JSValue.num 3, JSValue.undef⟩]
        (asyncDepStub "http" "get" 9 [] baseState) =
      .ok { asyncDepStub "http" "get" 9 [] baseState with
            depCompletions :=
              adel (asyncDepStub "http" "get" 9 [] baseState).depCompletions 0,
            promiseOutcomes := [(9, Outcome.resolved (JSValue.num 3))] } ∧
    resolveExternalDependencies [⟨0, JSValue.num 3, JSValue.str "boom"⟩]
        (asyncDepStub "http" "get" 9 [] baseState) =
      .ok { asyncDepStub "http" "get" 9 [] baseState with
            depCompletions :=
              adel (asyncDepStub "http" "get" 9 [] baseState).depCompletions 0,
            promiseOutcomes := [(9, Outcome.rejected (JSValue.str "boom"))] } ∧
    resolveExternalDependencies [⟨5, JSValue.undef, JSValue.undef⟩] baseState =
      .error Err.illegalState := by
  refine ⟨?_, ?_, ?_⟩
  · have h := (resolveExternalDependencies_correlation "http" "get" 9 []
      baseState (JSValue.num 3) JSValue.undef).1
    simpa [baseState] using h
  · have h := (resolveExternalDependencies_correlation "http" "get" 9 []
      baseState (JSValue.num 3) (JSValue.str "boom")).2.1 (by decide)
    simpa [baseState] using h
  · exact (resolveExternalDependencies_correlation "x" "y" 0 [] baseState
      JSValue.undef JSValue.undef).2.2 baseState 5 rfl JSValue.undef JSValue.undef

/-- Claim C2: a job processed while `state.completed` is true whose variant
is not `queryWorkflow` is silently dropped: the activator handler is not
invoked (the dispatch trace is unchanged) and the state -- in particular the
command buffer -- is left exactly as it was; a `queryWorkflow` job is still
dispatched to its handler. -/
theorem completed_drops_nonquery_jobs (activator : Activator)
    (s : WorkflowState) (tr : List (Variant × JSValue)) (j : Job)
    (v : Variant) (p : JSValue)
    (hc : s.completed = true) (hv : j.variant = some v)
    (hp : j.payload = some p) :
    (v ≠ Variant.queryWorkflow → processJob activator (s, tr) j = .ok (s, tr)) ∧
    (v = Variant.queryWorkflow →
      processJob activator (s, tr) j =
        .ok ((tryUnblockConditions (activator v p s)).1, tr ++ [(v, p)])) := by
  constructor
  · intro hne
    simp [processJob, hv, hp, hc, hne]
  · intro heq
    subst heq
    simp [processJob, hv, hp, hc]

/-- Witness for C2: on a completed state a `fireTimer` job is dropped with no
state change, while a `queryWorkflow` job is dispatched. -/
theorem completed_drops_nonquery_jobs_witness :
    processJob idActivator ({ baseState with completed := true }, [])
      ⟨some Variant.fireTimer, some JSValue.undef⟩ =
      .ok ({ baseState with completed := true }, []) ∧
    processJob idActivator ({ baseState with completed := true }, [])
      ⟨some Variant.queryWorkflow, some (JSValue.str "q")⟩ =
      .ok ((tryUnblockConditions (idActivator Variant.queryWorkflow
            (JSValue.str "q") { baseState with completed := true })).1,
        [(Variant.queryWorkflow, JSValue.str "q")]) :=
  ⟨(completed_drops_nonquery_jobs idActivator
      { baseState with completed := true } []
      ⟨some Variant.fireTimer, some JSValue.undef⟩
      Variant.fireTimer JSValue.undef rfl rfl rfl).1 (by decide),
   (completed_drops_nonquery_jobs idActivator
      { baseState with completed := true } []
      ⟨some Variant.queryWorkflow, some (JSValue.str "q")⟩
      Variant.queryWorkflow (JSValue.str "q") rfl rfl rfl).2 rfl⟩

theorem exc_bind_ok {α β γ : Type} (a : α) (g : α → Except γ β) :
    (Except.ok a >>= g) = g a := rfl

theorem exc_bind_err {α β γ : Type} (e : γ) (g : α → Except γ β) :
    ((Except.error e : Except γ α) >>= g) = Except.error e := rfl

theorem tryUnblockConditions_now (s : WorkflowState) :
    (tryUnblockConditions s).1.now = s.now := rfl

theorem processJob_now (activator : Activator)
    (hpres : ∀ v p st, (activator v p st).now = st.now)
    (acc : WorkflowState × List (Variant × JSValue)) (j : Job)
    (res : WorkflowState × List (Variant × JSValue))
    (h : processJob activator acc j = .ok res) : res.1.now = acc.1.now := by
  cases hv : j.variant with
  | none => simp [processJob, hv] at h
  | some v =>
    cases hp : j.payload with
    | none => simp [processJob, hv, hp] at h
    | some p =>
      by_cases hg : acc.1.completed ∧ v ≠ Variant.queryWorkflow
      · simp only [processJob, hv, hp, if_pos hg, Except.ok.injEq] at h
        subst h
        rfl
      · simp only [processJob, hv, hp, if_neg hg, Except.ok.injEq] at h
        subst h
        exact (tryUnblockConditions_now _).trans (hpres v p acc.1)

theorem foldl_processJob_now (activator : Activator)
    (hpres : ∀ v p st, (activator v p st).now = st.now)
    (jobs : List Job) :
    ∀ (acc res : WorkflowState × List (Variant × JSValue)),
      List.foldlM (processJob activator) acc jobs = .ok res →
      res.1.now = acc.1.now := by
  induction jobs with
  | nil =>
    intro acc res h
    simp only [List.foldlM_nil] at h
    cases h
    rfl
  | cons j js ih =>
    intro acc res h
    rw [List.foldlM_cons] at h
    cases hj : processJob activator acc j with
    | error e =>
      rw [hj, exc_bind_err] at h
      exact absurd h (by simp)
    | ok acc1 =>
      rw [hj, exc_bind_ok] at h
      exact (ih acc1 res h).trans (processJob_now activator hpres acc j acc1 hj)

theorem processJobs_now (activator : Activator)
    (hpres : ∀ v p st, (activator v p st).now = st.now)
    (jobs : List Job) (s : WorkflowState)
    (res : WorkflowState × List (Variant × JSValue))
    (h : processJobs activator jobs s = .ok res) : res.1.now = s.now :=
  foldl_processJob_now activator hpres jobs (s, []) res h

theorem activate_tail_now (activator : Activator)
    (hpres : ∀ v p st, (activator v p st).now = st.now)
    (js : List Job) (s0 : WorkflowState)
    (out : WorkflowState × ActivationResult × List (Variant × JSValue))
    (h : (do
        let r ← processJobs activator js s0
        Except.ok ((getAndResetPendingExternalCalls r.1).1,
          ActivationResult.mk (getAndResetPendingExternalCalls r.1).2
            (getAndResetPendingExternalCalls r.1).1.blockedConditions.length,
          r.2)) = Except.ok out) :
    out.1.now = s0.now := by
  cases hpj : processJobs activator js s0 with
  | error e =>
    rw [hpj, exc_bind_err] at h
    exact absurd h (by simp)
  | ok rr =>
    rw [hpj, exc_bind_ok] at h
    simp only [Except.ok.injEq] at h
    subst h
    exact processJobs_now activator hpres js s0 rr hpj

theorem activate_ok_now_eq (activator : Activator)
    (hpres : ∀ v p st, (activator v p st).now = st.now)
    (A : Activation) (bi : Nat) (s s' : WorkflowState)
    (res : ActivationResult) (tr : List (Variant × JSValue))
    (hact : activate activator A bi s = .ok (s', res, tr)) :
    s'.now = if bi = 0 then
        (match A.timestamp with | some T => tsToMs T | none => s.now)
      else s.now := by
  cases hjobs : A.jobs with
  | none =>
    exfalso
    by_cases hbi : bi = 0
    · cases hinfo : s.info
      · simp [activate, hbi, hinfo, exc_bind_ok, exc_bind_err] at hact
      · simp [activate, hbi, hinfo, hjobs, exc_bind_ok, exc_bind_err] at hact
    · simp [activate, hbi, hjobs, exc_bind_ok, exc_bind_err] at hact
  | some js =>
    by_cases hbi : bi = 0
    · subst hbi
      cases hinfo : s.info with
      | none => simp [activate, hinfo, exc_bind_ok, exc_bind_err] at hact
      | some i =>
        cases hts : A.timestamp with
        | some T =>
          simp only [activate, hinfo, hjobs, hts, Option.isNone_some,
            Bool.false_eq_true, if_false, Option.isNone_none, Option.map_some,
            exc_bind_ok, ite_true, ite_false] at hact
          have hnow := activate_tail_now activator hpres js _ _ hact
          show s'.now = tsToMs T
          exact hnow
        | none =>
          simp only [activate, hinfo, hjobs, hts, Option.isNone_some,
            Bool.false_eq_true, if_false, Option.isNone_none, Option.map_some,
            exc_bind_ok, ite_true, ite_false] at hact
          have hnow := activate_tail_now activator hpres js _ _ hact
          show s'.now = s.now
          exact hnow
    · rw [if_neg hbi]
      simp only [activate, hbi, hjobs, exc_bind_ok, ite_false, if_false] at hact
      have hnow := activate_tail_now activator hpres js _ _ hact
      exact hnow

/-- Claim C1: for an activation carrying a timestamp, after `activate(A, 0)`
returns, `state.now` -- and hence the user-visible clock installed by
`overrideGlobals` (`Date.now()` and no-argument `Date` construction) --
equals that timestamp (in epoch milliseconds); when the activation carries no
timestamp, or the batch index is non-zero, `state.now` is unchanged.  The
activator handlers live outside the modelled module and are assumed not to
write `state.now` (spec invariant: time only advances from an activation
timestamp). -/
theorem activate_sets_now_from_timestamp (activator : Activator)
    (A : Activation) (s : WorkflowState) (g : Globals)
    (hpres : ∀ v p st, (activator v p st).now = st.now) :
    (∀ T s' res tr, A.timestamp = some T →
      activate activator A 0 s = .ok (s', res, tr) →
      s'.now = tsToMs T ∧
      (overrideGlobals g).dateNowFn s' = tsToMs T ∧
      ((overrideGlobals g).dateCtorFn [] s').epochMs = tsToMs T) ∧
    (∀ bi s' res tr, (A.timestamp = none ∨ bi ≠ 0) →
      activate activator A bi s = .ok (s', res, tr) →
      s'.now = s.now) := by
  constructor
  · intro T s' res tr hT hact
    have h := activate_ok_now_eq activator hpres A 0 s s' res tr hact
    rw [hT] at h
    simp only [reduceIte] at h
    exact ⟨h, h, h⟩
  · intro bi s' res tr hcase hact
    have h := activate_ok_now_eq activator hpres A bi s s' res tr hact
    rcases hcase with hT | hbi
    · rw [hT] at h
      simpa using h
    · rw [if_neg hbi] at h
      exact h

/-- Witness for C1: activating with timestamp 5s at the fresh state yields a
state whose clock reads 5000 ms. -/
theorem activate_sets_now_from_timestamp_witness :
    tsActivationOut.1.now = tsToMs ⟨5, 0⟩ ∧
    (overrideGlobals origGlobals).dateNowFn tsActivationOut.1 = tsToMs ⟨5, 0⟩ :=
  ⟨((activate_sets_now_from_timestamp idActivator tsActivation baseState
      origGlobals (fun _ _ _ => rfl)).1 ⟨5, 0⟩ tsActivationOut.1
      tsActivationOut.2.1 tsActivationOut.2.2 rfl rfl).1,
   ((activate_sets_now_from_timestamp idActivator tsActivation baseState
      origGlobals (fun _ _ _ => rfl)).1 ⟨5, 0⟩ tsActivationOut.1
      tsActivationOut.2.1 tsActivationOut.2.2 rfl rfl).2.1⟩

theorem unblockPass_length (l : List (Nat × BlockedCond)) (env : Env) :
    (unblockPass l env).1.length + (unblockPass l env).2.2.length = l.length := by
  induction l generalizing env with
  | nil => rfl
  | cons hd tl ih =>
    obtain ⟨seq, c⟩ := hd
    simp only [unblockPass]
    cases hf : c.fn env
    · simp only [Bool.false_eq_true, if_false, List.length_cons]
      have := ih env
      omega
    · simp only [if_true, List.length_cons]
      have := ih (c.onResolve env)
      omega

theorem unblockPass_res_nil (l : List (Nat × BlockedCond)) (env : Env)
    (h : (unblockPass l env).2.2 = []) :
    (unblockPass l env).1 = l ∧ (unblockPass l env).2.1 = env ∧
      ∀ p ∈ l, p.2.fn env = false := by
  induction l generalizing env with
  | nil => exact ⟨rfl, rfl, by simp⟩
  | cons hd tl ih =>
    obtain ⟨seq, c⟩ := hd
    cases hf : c.fn env
    · have h' : (unblockPass tl env).2.2 = [] := by
        simpa [unblockPass, hf] using h
      obtain ⟨h1, h2, h3⟩ := ih env h'
      refine ⟨?_, ?_, ?_⟩
      · simp [unblockPass, hf, h1]
      · simp [unblockPass, hf, h2]
      · intro p hp
        rcases List.mem_cons.mp hp with rfl | hp
        · exact hf
        · exact h3 p hp
    · exfalso
      have hne : (unblockPass ((seq, c) :: tl) env).2.2 =
          seq :: (unblockPass tl (c.onResolve env)).2.2 := by
        simp [unblockPass, hf]
      rw [hne] at h
      exact List.cons_ne_nil _ _ h

theorem unblockPass_all_false (l : List (Nat × BlockedCond)) (env : Env)
    (h : ∀ p ∈ l, p.2.fn env = false) : unblockPass l env = (l, env, []) := by
  induction l with
  | nil => rfl
  | cons hd tl ih =>
    obtain ⟨seq, c⟩ := hd
    have hc : c.fn env = false := h (seq, c) (List.mem_cons_self _ _)
    have ht : ∀ p ∈ tl, p.2.fn env = false :=
      fun p hp => h p (List.mem_cons_of_mem _ hp)
    simp [unblockPass, hc, ih ht]

theorem unblockPass_perm (l : List (Nat × BlockedCond)) (env : Env) :
    (l.map Prod.fst).Perm
      ((unblockPass l env).2.2 ++ (unblockPass l env).1.map Prod.fst) := by
  induction l generalizing env with
  | nil => simp [unblockPass]
  | cons hd tl ih =>
    obtain ⟨seq, c⟩ := hd
    cases hf : c.fn env
    · have ihe := ih env
      simp only [unblockPass, hf, Bool.false_eq_true, if_false, List.map_cons]
      exact (ihe.cons seq).trans List.perm_middle.symm
    · have ihe := ih (c.onResolve env)
      simp only [unblockPass, hf, if_true, List.map_cons, List.cons_append]
      exact ihe.cons seq

theorem unblockLoop_fixed (f : Nat) :
    ∀ (l : List (Nat × BlockedCond)) (env : Env), l.length < f →
      ∀ p ∈ (unblockLoop f l env).1,
        p.2.fn (unblockLoop f l env).2.1 = false := by
  induction f with
  | zero =>
    intro l env h
    exact absurd h (Nat.not_lt_zero _)
  | succ f ih =>
    intro l env h p hp
    by_cases hres : (unblockPass l env).2.2 = []
    · have heq : unblockLoop (f + 1) l env = unblockPass l env := by
        simp [unblockLoop, hres]
      rw [heq] at hp ⊢
      obtain ⟨h1, h2, h3⟩ := unblockPass_res_nil l env hres
      rw [h1] at hp
      rw [h2]
      exact h3 p hp
    · have hlen := unblockPass_length l env
      have hpos : 0 < (unblockPass l env).2.2.length := List.length_pos.mpr hres
      have hlt : (unblockPass l env).1.length < f := by omega
      have heq : unblockLoop (f + 1) l env =
          ((unblockLoop f (unblockPass l env).1 (unblockPass l env).2.1).1,
           (unblockLoop f (unblockPass l env).1 (unblockPass l env).2.1).2.1,
           (unblockPass l env).2.2 ++
             (unblockLoop f (unblockPass l env).1 (unblockPass l env).2.1).2.2) := by
        simp [unblockLoop, hres]
      rw [heq] at hp ⊢
      exact ih (unblockPass l env).1 (unblockPass l env).2.1 hlt p hp

theorem unblockLoop_perm (f : Nat) :
    ∀ (l : List (Nat × BlockedCond)) (env : Env),
      (l.map Prod.fst).Perm
        ((unblockLoop f l env).2.2 ++ (unblockLoop f l env).1.map Prod.fst) := by
  induction f with
  | zero => intro l env; simp [unblockLoop]
  | succ f ih =>
    intro l env
    by_cases hres : (unblockPass l env).2.2 = []
    · have heq : unblockLoop (f + 1) l env = unblockPass l env := by
        simp [unblockLoop, hres]
      rw [heq]
      exact unblockPass_perm l env
    · have heq : unblockLoop (f + 1) l env =
          ((unblockLoop f (unblockPass l env).1 (unblockPass l env).2.1).1,
           (unblockLoop f (unblockPass l env).1 (unblockPass l env).2.1).2.1,
           (unblockPass l env).2.2 ++
             (unblockLoop f (unblockPass l env).1 (unblockPass l env).2.1).2.2) := by
        simp [unblockLoop, hres]
      rw [heq]
      have h1 := unblockPass_perm l env
      have h2 := ih (unblockPass l env).1 (unblockPass l env).2.1
      refine (h1.trans ((List.Perm.append_left _ h2).trans ?_))
      rw [List.append_assoc]

theorem unblockLoop_res_nil_iff (f : Nat) (l : List (Nat × BlockedCond))
    (env : Env) :
    (unblockLoop (f + 1) l env).2.2 = [] ↔ ∀ p ∈ l, p.2.fn env = false := by
  constructor
  · intro h
    by_cases hres : (unblockPass l env).2.2 = []
    · exact (unblockPass_res_nil l env hres).2.2
    · exfalso
      have heq : (unblockLoop (f + 1) l env).2.2 =
          (unblockPass l env).2.2 ++
            (unblockLoop f (unblockPass l env).1 (unblockPass l env).2.1).2.2 := by
        simp [unblockLoop, hres]
      rw [heq] at h
      exact hres (List.append_eq_nil.mp h).1
  · intro h
    have hp := unblockPass_all_false l env h
    simp [unblockLoop, hp]

/-- Claim C6: `tryUnblockConditions` iterates passes to a fixed point.  With
distinct registered sequence numbers (the JS `Map` invariant): the original
entries split exactly into the unblocked ones (each resolver called exactly
once, recorded in order in the `resolvedConds` trace, no duplicates) and the
remaining map; every remaining entry's predicate is false in the final
environment (the final full pass unblocked nothing); the return value is the
total number unblocked, and it is 0 iff no registered predicate evaluates to
true at entry. -/
theorem tryUnblockConditions_fixed_point (s : WorkflowState)
    (hkeys : (s.blockedConditions.map Prod.fst).Nodup) :
    (tryUnblockConditions s).2 = (unblockedSeqs s).length ∧
    (tryUnblockConditions s).1.resolvedConds =
      s.resolvedConds ++ unblockedSeqs s ∧
    (s.blockedConditions.map Prod.fst).Perm
      (unblockedSeqs s ++
        (tryUnblockConditions s).1.blockedConditions.map Prod.fst) ∧
    (unblockedSeqs s).Nodup ∧
    (∀ p ∈ (tryUnblockConditions s).1.blockedConditions,
      p.2.fn (tryUnblockConditions s).1.env = false) ∧
    ((tryUnblockConditions s).2 = 0 ↔
      ∀ p ∈ s.blockedConditions, p.2.fn s.env = false) := by
  refine ⟨rfl, rfl, ?_, ?_, ?_, ?_⟩
  · exact unblockLoop_perm (s.blockedConditions.length + 1)
      s.blockedConditions s.env
  · have hperm := unblockLoop_perm (s.blockedConditions.length + 1)
      s.blockedConditions s.env
    have hnd := hperm.nodup hkeys
    exact (List.nodup_append.mp hnd).1
  · intro p hp
    exact unblockLoop_fixed (s.blockedConditions.length + 1)
      s.blockedConditions s.env (Nat.lt_succ_self _) p hp
  · constructor
    · intro h
      have hlen : (unblockedSeqs s).length = 0 := h
      have hnil : unblockedSeqs s = [] := List.length_eq_zero.mp hlen
      exact (unblockLoop_res_nil_iff s.blockedConditions.length
        s.blockedConditions s.env).mp hnil
    · intro h
      have hnil : (unblockLoop (s.blockedConditions.length + 1)
          s.blockedConditions s.env).2.2 = [] :=
        (unblockLoop_res_nil_iff s.blockedConditions.length
          s.blockedConditions s.env).mpr h
      show (unblockedSeqs s).length = 0
      rw [show unblockedSeqs s = [] from hnil]
      rfl

/-- Witness for C6: on a state with one unblockable and one blocked
condition, the resolver trace extends by the unblocked sequence numbers. -/
theorem tryUnblockConditions_fixed_point_witness :
    (tryUnblockConditions condState).1.resolvedConds =
      condState.resolvedConds ++ unblockedSeqs condState :=
  (tryUnblockConditions_fixed_point condState (by decide)).2.1

end SdkCore
